import Mathlib

/-!
Verification development for the `tsbuild` build orchestrator.

The definitions below are a shallow embedding of `src/index.ts`,
`src/utils.ts`, `src/file-map.ts` and `src/dependency-map.ts`:

* file mtimes are `Int` (JavaScript `mtimeMs`), with the `-Infinity` /
  `Infinity` sentinels of the analyzer modelled by `Option Int`
  (`none` standing for the infinite sentinel);
* the filesystem and the parsed-configuration service are a `World`
  value threaded explicitly (the source reads both through `fs` and
  `parseConfigFile`);
* a JavaScript exception is an `Except.error`;
* the `path` library is modelled by executable segment arithmetic on
  `/`-separated strings.
-/

namespace TsBuild

/-! ## String and path helpers (model of the `path` library) -/

/-- Split a character list on a separator character. -/
def splitChar (sep : Char) : List Char → List Char → List String
  | [], acc => [String.mk acc.reverse]
  | c :: rest, acc =>
    if c = sep then String.mk acc.reverse :: splitChar sep rest []
    else splitChar sep rest (c :: acc)

/-- Split a string into its `/`-separated segments. -/
def pathSegs (s : String) : List String := splitChar '/' s.data []

/-- Resolve `.` and `..` segments, dropping empty segments. -/
def cleanSegs (segs : List String) : List String :=
  segs.foldl
    (fun acc seg =>
      if seg = "" ∨ seg = "." then acc
      else if seg = ".." then acc.dropLast
      else acc ++ [seg]) []

/-- Join segments back with `/`. -/
def joinSegs : List String → String
  | [] => ""
  | [s] => s
  | s :: rest => s ++ "/" ++ joinSegs rest

/-- `true` iff `pre` is a prefix of `s`. -/
def startsWithS (s pre : String) : Bool := pre.data.isPrefixOf s.data

/-- `true` iff `suf` is a suffix of `s`. -/
def endsWithS (s suf : String) : Bool := suf.data.isSuffixOf s.data

/-- Model of `path.normalize` for the paths the program manipulates. -/
def pnormalize (fn : String) : String :=
  if startsWithS fn "/" then "/" ++ joinSegs (cleanSegs (pathSegs fn))
  else joinSegs (cleanSegs (pathSegs fn))

/-- Model of `path.normalize(path.resolve(fn))` as used by `FileMap`:
relative names are resolved against a current working directory. -/
def normalizeP (cwd fn : String) : String :=
  if startsWithS fn "/" then "/" ++ joinSegs (cleanSegs (pathSegs fn))
  else "/" ++ joinSegs (cleanSegs (pathSegs (cwd ++ "/" ++ fn)))

/-- The part of `s` strictly before the last occurrence of `c`
(Javascript `substr(0, lastIndexOf(c))`; empty when `c` is absent,
matching `substr(0, -1) = ""`). -/
def beforeLastChar (c : Char) (s : String) : String :=
  match s.data.reverse.dropWhile (fun x => x ≠ c) with
  | [] => ""
  | _ :: rest => String.mk rest.reverse

/-- Model of `path.dirname` for absolute multi-segment paths. -/
def dirnameP (s : String) : String :=
  match beforeLastChar '/' s with
  | "" => if startsWithS s "/" then "/" else "."
  | d => d

/-- Model of `path.join(base, "..", p)` (concatenate, then normalize). -/
def joinUp (base p : String) : String := pnormalize (base ++ "/../" ++ p)

/-- Model of `path.join(a, b)`. -/
def joinP (a b : String) : String := pnormalize (a ++ "/" ++ b)

/-- Model of `path.resolve(base, p)` for an absolute `base`. -/
def pathResolve (base p : String) : String :=
  if startsWithS p "/" then pnormalize p else pnormalize (base ++ "/" ++ p)

/-- Model of `path.relative(base, fn)` for the case the program uses:
`fn` lies underneath the absolute directory `base`. -/
def pathRelative (base fn : String) : String :=
  if startsWithS fn (base ++ "/") then String.mk (fn.data.drop (base.data.length + 1))
  else fn

/-- `changeExtension` from `src/index.ts`: text before the last `.`,
with the new extension appended. -/
def changeExtension (fileName extensionWithLeadingDot : String) : String :=
  beforeLastChar '.' fileName ++ extensionWithLeadingDot

/-- JavaScript `s.replace(/\.js$/, ".d.ts")`. -/
def replaceJsWithDts (s : String) : String :=
  if endsWithS s ".js" then String.mk (s.data.take (s.data.length - 3)) ++ ".d.ts"
  else s

/-- JavaScript `s.replace(/\.tsx?$/, ext)`. -/
def replaceTsx (s ext : String) : String :=
  if endsWithS s ".tsx" then String.mk (s.data.take (s.data.length - 4)) ++ ext
  else if endsWithS s ".ts" then String.mk (s.data.take (s.data.length - 3)) ++ ext
  else s

/-- `isDeclarationFile` from `src/index.ts`: `/\.d\.ts$/.test(fileName)`. -/
def isDeclarationFile (fileName : String) : Bool := endsWithS fileName ".d.ts"

/-! ## Association lists (model of JavaScript object maps) -/

/-- Set a key in an association list, replacing an existing binding. -/
def aset {α : Type} : List (String × α) → String → α → List (String × α)
  | [], k, v => [(k, v)]
  | (k', v') :: rest, k, v =>
    if k' = k then (k, v) :: rest else (k', v') :: aset rest k v

theorem lookup_aset_self {α : Type} (m : List (String × α)) (k : String) (v : α) :
    (aset m k v).lookup k = some v := by
  induction m with
  | nil => simp [aset, List.lookup]
  | cons hd tl ih =>
    obtain ⟨k', v'⟩ := hd
    by_cases h : k' = k
    · simp [aset, h, List.lookup]
    · simp only [aset, if_neg h, List.lookup]
      have : (k == k') = false := by
        simp [beq_iff_eq]; exact fun hh => h hh.symm
      simp [this, ih]

theorem lookup_aset_other {α : Type} (m : List (String × α)) (k k' : String) (v : α)
    (h : k' ≠ k) : (aset m k v).lookup k' = m.lookup k' := by
  induction m with
  | nil =>
    simp only [aset, List.lookup]
    have : (k' == k) = false := by simp [beq_iff_eq]; exact h
    simp [this]
  | cons hd tl ih =>
    obtain ⟨k₀, v₀⟩ := hd
    by_cases hk : k₀ = k
    · subst hk
      simp only [aset, if_pos rfl, List.lookup]
      have : (k' == k₀) = false := by simp [beq_iff_eq]; exact h
      simp [this]
    · simp only [aset, if_neg hk, List.lookup]
      by_cases hk' : k' = k₀
      · subst hk'
        simp
      · have h1 : (k' == k₀) = false := by simp [beq_iff_eq]; exact hk'
        simp [h1, ih]

theorem aset_lookup_eq {α : Type} (m : List (String × α)) (k : String) (v : α)
    (h : m.lookup k = some v) : aset m k v = m := by
  induction m with
  | nil => simp [List.lookup] at h
  | cons hd tl ih =>
    obtain ⟨k', v'⟩ := hd
    by_cases hk : k' = k
    · subst hk
      simp only [List.lookup, beq_self_eq_true] at h
      simp only [aset, if_pos rfl]
      simp at h
      simp [h]
    · have h1 : (k == k') = false := by
        simp [beq_iff_eq]; exact fun hh => hk hh.symm
      simp only [List.lookup, h1] at h
      simp only [aset, if_neg hk]
      rw [ih h]

theorem aset_aset_self {α : Type} (m : List (String × α)) (k : String) (v : α) :
    aset (aset m k v) k v = aset m k v :=
  aset_lookup_eq _ _ _ (lookup_aset_self m k v)

/-! ## `FileMap` (src/file-map.ts)

Keys are stored normalized (`path.normalize(path.resolve(fn))`,
modelled by `normalizeP cwd`). -/

/-- The backing store of a `FileMap<T>`. -/
abbrev FMap (α : Type) : Type := List (String × α)

/-- `FileMap.setValue`. -/
def fmSetValue {α : Type} (cwd : String) (m : FMap α) (fileName : String) (v : α) : FMap α :=
  aset m (normalizeP cwd fileName) v

/-- `FileMap.getValue`; the `Except.error` models the thrown `Error`. -/
def fmGetValue {α : Type} (cwd : String) (m : FMap α) (fileName : String) : Except String α :=
  match List.lookup (normalizeP cwd fileName) m with
  | some v => .ok v
  | none => .error ("No value corresponding to " ++ fileName ++ " exists in this map")

/-- `FileMap.getValueOrUndefined`. -/
def fmGetValueOrUndefined {α : Type} (cwd : String) (m : FMap α) (fileName : String) : Option α :=
  List.lookup (normalizeP cwd fileName) m

/-! ## Dependency mapper (src/dependency-map.ts) -/

/-- The closure state of `createDependencyMapper`. -/
structure MapSt where
  childToParents : List (String × List String)
  parentToChildren : List (String × List String)
  allKeys : List String
  deriving DecidableEq, Repr

/-- The freshly created mapper. -/
def emptyMapper : MapSt := ⟨[], [], []⟩

/-- `addEntry` of `createDependencyMapper` acting on one of the two maps. -/
def addEntryMap (m : List (String × List String)) (key element : String) :
    List (String × List String) :=
  let arr := (m.lookup key).getD []
  aset m key (if element ∈ arr then arr else arr ++ [element])

/-- `addEntry`'s effect on `allKeys`. -/
def addEntryKeys (keys : List String) (key element : String) : List String :=
  let keys := if key ∈ keys then keys else keys ++ [key]
  if element ∈ keys then keys else keys ++ [element]

/-- `addEntry(mapToAddTo, key, element)` (keys/elements normalized first). -/
def addReference (childConfigFileName parentConfigFileName : String) (st : MapSt) : MapSt :=
  let c := pnormalize childConfigFileName
  let p := pnormalize parentConfigFileName
  { childToParents := addEntryMap st.childToParents c p
    parentToChildren := addEntryMap st.parentToChildren p c
    allKeys := addEntryKeys (addEntryKeys st.allKeys c p) p c }

/-- `getReferencesOf(child)`. -/
def getReferencesOf (st : MapSt) (childConfigFileName : String) : List String :=
  (st.childToParents.lookup (pnormalize childConfigFileName)).getD []

/-- `getReferencesTo(parent)`. -/
def getReferencesTo (st : MapSt) (parentConfigFileName : String) : List String :=
  (st.parentToChildren.lookup (pnormalize parentConfigFileName)).getD []

/-- `getKeys()`. -/
def getKeys (st : MapSt) : List String := st.allKeys

/-! ## Build-queue duplicate removal (src/utils.ts) -/

/-- `occursAfter(s, start)` specialised to the layers after the current
one: does `s` occur in any of `rest`? -/
def occursInLater (s : String) (rest : List (List String)) : Bool :=
  rest.any (fun layer => s ∈ layer)

/-- `removeDuplicatesFromBuildQueue`: each layer keeps only the entries
that do not occur in a later (original) layer; the last layer's filter is
vacuous, mirroring the `i < queue.length - 1` bound of the source. -/
def removeDuplicatesFromBuildQueue : List (List String) → List (List String)
  | [] => []
  | layer :: rest =>
    layer.filter (fun fn => !occursInLater fn rest) :: removeDuplicatesFromBuildQueue rest

/-! ## Data model: configurations, files, worlds, statuses -/

/-- One entry of `options.references` (`{path, prepend}`). -/
structure PRef where
  path : String
  prepend : Bool
  deriving DecidableEq, Repr

/-- The slice of `ts.ParsedCommandLine` the orchestrator consumes. -/
structure Cfg where
  fileNames : List String
  outFile : Option String := none
  outDir : Option String := none
  rootDir : Option String := none
  declaration : Bool := false
  references : Option (List PRef) := none
  deriving DecidableEq, Repr

/-- A file on disk: contents plus `mtimeMs`. -/
structure FileD where
  content : String
  mtime : Int
  deriving DecidableEq, Repr

/-- The ambient state the program reads: the configuration-parsing
service (`parseConfigFile`) and the filesystem. -/
structure World where
  configs : List (String × Cfg)
  files : List (String × FileD)
  deriving DecidableEq, Repr

/-- `parseConfigFile` (src/utils.ts), modelled as the parsing service. -/
def parseConfigFile (w : World) (fileName : String) : Option Cfg :=
  w.configs.lookup fileName

/-- `fs.statSync(f).mtimeMs`, when `f` exists. -/
def fileMtime (w : World) (f : String) : Option Int :=
  (w.files.lookup f).map FileD.mtime

/-- `fs.existsSync` / `ts.sys.fileExists` for content files. -/
def fileExistsW (w : World) (f : String) : Bool :=
  (w.files.lookup f).isSome

/-- `fs.existsSync` including configuration files. -/
def existsAnyW (w : World) (f : String) : Bool :=
  (w.configs.lookup f).isSome || (w.files.lookup f).isSome

/-- `fs.readFileSync`; `.error` models the thrown `ENOENT`. -/
def readFileE (w : World) (f : String) : Except String String :=
  match w.files.lookup f with
  | some d => .ok d.content
  | none => .error ("ENOENT: " ++ f)

/-- `fs.writeFileSync` (content replaced, mtime advanced to `now`). -/
def writeFileW (w : World) (f : String) (content : String) (now : Int) : World :=
  { w with files := aset w.files f ⟨content, now⟩ }

/-- `fs.utimesSync` (mtime only). -/
def setMtimeW (w : World) (f : String) (t : Int) : World :=
  { w with files :=
      match w.files.lookup f with
      | some d => aset w.files f ⟨d.content, t⟩
      | none => w.files }

/-- Model of `ts.getProjectReferenceFileNames(host, options)`: the
external resolver hands back the referenced configuration file names
recorded in `options.references`. -/
def getProjectReferenceFileNames (cfg : Cfg) : Option (List String) :=
  cfg.references.map (fun rs => rs.map PRef.path)

/-- `UpToDateStatus` (src/index.ts). `Option Int` timestamps carry the
`-Infinity` sentinel as `none`. -/
inductive Status where
  | unbuildable : Status
  | upToDate (timestamp : Option Int) : Status
  | pseudoUpToDate (timestamp : Int) : Status
  | missing (missingFile : String) : Status
  | outOfDate (newerFile : String) (newerTimestamp : Option Int)
      (olderFile : String) (olderTimestamp : Option Int) : Status
  | olderThanDependency (dependency : String) : Status
  deriving DecidableEq, Repr

/-- Result of running a piece of code that may throw: either a thrown
exception or a returned status. -/
inductive CheckRes where
  | thrown (msg : String) : CheckRes
  | status (s : Status) : CheckRes
  deriving DecidableEq, Repr

/-! Sentinel-aware comparisons: `newest` starts at `-Infinity` (`none`),
`oldest` starts at `Infinity` (`none`). -/

/-- `inputTime > newestInputFileTime` where `newest` may be `-Infinity`. -/
def gtNewest (t : Int) (newest : Option Int) : Bool :=
  match newest with
  | none => true
  | some n => t > n

/-- `outputFileTime < oldestOutputFileTime` where `oldest` may be `Infinity`. -/
def ltOldest (t : Int) (oldest : Option Int) : Bool :=
  match oldest with
  | none => true
  | some o => t < o

/-- `newestInputFileTime > oldestOutputFileTime` on sentinel values. -/
def newestGtOldest (newest oldest : Option Int) : Bool :=
  match newest, oldest with
  | none, _ => false
  | some _, none => false
  | some n, some o => n > o

/-- `oldestOutputFileTime >= pseduoInputFileTime` (`Infinity >= t`). -/
def oldestGe (oldest : Option Int) (t : Int) : Bool :=
  match oldest with
  | none => true
  | some o => o ≥ t

/-- `Math.max(newestInputFileTime, newestPseudoInput)` where the first
argument may be `-Infinity`. -/
def maxOpt (newest : Option Int) (pseudo : Int) : Int :=
  match newest with
  | none => pseudo
  | some n => max n pseudo

/-! ## Output-path resolver (src/index.ts) -/

/-- `rootDirOfOptions`. -/
def rootDirOfOptions (cfg : Cfg) (configFileName : String) : String :=
  cfg.rootDir.getD (dirnameP configFileName)

/-- `getRelativeOutputFileName`; throws when `outDir` is unset. -/
def getRelativeOutputFileName (inputFileName : String) (cfg : Cfg) (configFileName : String) :
    Except String String :=
  let relativePath := pathRelative (rootDirOfOptions cfg configFileName) inputFileName
  match cfg.outDir with
  | none => .error (configFileName ++ " must set 'outDir'")
  | some od => .ok (pathResolve od relativePath)

/-- `getOutputDeclarationFileName`. -/
def getOutputDeclarationFileName (inputFileName : String) (cfg : Cfg) (configFileName : String) :
    Except String String :=
  (getRelativeOutputFileName inputFileName cfg configFileName).map (replaceTsx · ".d.ts")

/-- `getOutputJavaScriptFileName`. -/
def getOutputJavaScriptFileName (inputFileName : String) (cfg : Cfg) (configFileName : String) :
    Except String String :=
  (getRelativeOutputFileName inputFileName cfg configFileName).map (replaceTsx · ".js")

/-- Per-input pair of outputs pushed by `getAllOutputFilenames`
(declaration name first, JavaScript name second, as in the source). -/
def perInputOutputs (cfg : Cfg) (configFileName : String) (inputs : List String) :
    Except String (List String) :=
  match inputs with
  | [] => .ok []
  | inputFile :: rest =>
    if isDeclarationFile inputFile then perInputOutputs cfg configFileName rest
    else do
      let d ← getOutputDeclarationFileName inputFile cfg configFileName
      let j ← getOutputJavaScriptFileName inputFile cfg configFileName
      let tail ← perInputOutputs cfg configFileName rest
      pure (d :: j :: tail)

/-- `getAllOutputFilenames`; the `.error` on a missing configuration
models the `parseConfigFile(configFileName)!` non-null assertion blowing
up, the `.error` on a missing `outDir` the explicit throw. -/
def getAllOutputFilenames (w : World) (configFileName : String) : Except String (List String) :=
  match parseConfigFile w configFileName with
  | none => .error ("TypeError: cannot read options of undefined (" ++ configFileName ++ ")")
  | some cfg =>
    match cfg.outFile with
    | some of =>
      if cfg.declaration then .ok [of, changeExtension of ".d.ts"] else .ok [of]
    | none => perInputOutputs cfg configFileName cfg.fileNames

/-- `getOutputDeclarationFilenames`. -/
def getOutputDeclarationFilenames (w : World) (configFileName : String) :
    Except String (List String) :=
  (getAllOutputFilenames w configFileName).map (List.filter isDeclarationFile)

/-! ## Up-to-date analyzer (`checkUpToDateRelativeToInputs`) -/

/-- The `FileMap` in `BuildContext` resolves names against the process
working directory; the model fixes it at the filesystem root. -/
def cwdRoot : String := "/"

/-- State of the own-input scan: the `missingFile` flag, the newest
input tracker and the per-input outputs accumulated on the way. -/
structure ScanSt where
  missingFile : Bool
  newestInput : Option Int
  newestName : String
  outputs : List String
  deriving DecidableEq, Repr

/-- First loop of the analyzer: stat every input, track the newest one,
and (for non-`outFile` projects) push the expected outputs of each
non-declaration input, gated on the `declaration` option. -/
def scanInputs (w : World) (cfg : Cfg) (configFileName : String) :
    List String → ScanSt → Except String ScanSt
  | [], st => .ok st
  | inputFile :: rest, st =>
    match w.files.lookup inputFile with
    | none => scanInputs w cfg configFileName rest { st with missingFile := true }
    | some fd =>
      let st :=
        if gtNewest fd.mtime st.newestInput then
          { st with newestInput := some fd.mtime, newestName := inputFile }
        else st
      if cfg.outFile = none ∧ isDeclarationFile inputFile = false then do
        let ds ←
          if cfg.declaration then do
            let d ← getOutputDeclarationFileName inputFile cfg configFileName
            pure [d]
          else pure []
        let j ← getOutputJavaScriptFileName inputFile cfg configFileName
        scanInputs w cfg configFileName rest { st with outputs := st.outputs ++ ds ++ [j] }
      else scanInputs w cfg configFileName rest st

/-- Result of the expected-output loop. -/
inductive OutRes where
  | early (s : Status) : OutRes
  | cont (oldest : Option Int) (oldestName : String) : OutRes
  deriving DecidableEq, Repr

/-- Second loop: existence check, oldest-output tracking, and the early
out-of-date bail against the (fixed) newest own input. -/
def outputsLoop (w : World) (newest : Option Int) (newestName : String) :
    List String → Option Int → String → OutRes
  | [], oldest, oldestName => .cont oldest oldestName
  | o :: rest, oldest, oldestName =>
    match w.files.lookup o with
    | none => .early (.missing o)
    | some fd =>
      let p := if ltOldest fd.mtime oldest then (some fd.mtime, o) else (oldest, oldestName)
      if newestGtOldest newest p.1 then
        .early (.outOfDate newestName newest p.2 p.1)
      else outputsLoop w newest newestName rest p.1 p.2

/-- The reference-input collection of the analyzer: for every referenced
project take `getOutputDeclarationFilenames` and keep an output when the
analyzed project uses `outFile` or the output is a `.d.ts`. -/
def collectRefInputs (w : World) (cfg : Cfg) : List String → Except String (List String)
  | [] => .ok []
  | ref :: rest => do
    let decls ← getOutputDeclarationFilenames w ref
    let kept := decls.filter (fun output => cfg.outFile.isSome || isDeclarationFile output)
    let tail ← collectRefInputs w cfg rest
    pure (kept ++ tail)

/-- The reference inputs of the analyzed project. -/
def referenceInputs (w : World) (cfg : Cfg) : Except String (List String) :=
  collectRefInputs w cfg ((getProjectReferenceFileNames cfg).getD [])

/-- State of the reference-input loop. -/
structure RefSt where
  newestInput : Option Int
  newestName : String
  usedPseudo : Bool
  newestPseudo : Int
  deriving DecidableEq, Repr

/-- Result of the reference-input loop. -/
inductive RefRes where
  | thrown (msg : String) : RefRes
  | early (s : Status) : RefRes
  | cont (st : RefSt) : RefRes
  deriving DecidableEq, Repr

/-- Third loop: reconcile each reference input with the pseudo-timestamp
memory; on the pseudo hit the file is skipped (`continue`) after folding
its current mtime into `newestPseudo`, otherwise the newest-input tracker
advances and the loop may bail out-of-date. A stat of a missing
reference input throws. -/
def refInputsLoop (w : World) (ctx : FMap Int) (oldest : Option Int) (oldestName : String) :
    RefSt → List String → RefRes
  | st, [] => .cont st
  | st, dependentFile :: rest =>
    match w.files.lookup dependentFile with
    | none => .thrown ("ENOENT: " ++ dependentFile)
    | some fd =>
      let pseudoSkip :=
        match fmGetValueOrUndefined cwdRoot ctx dependentFile with
        | some p => oldestGe oldest p
        | none => false
      if pseudoSkip then
        refInputsLoop w ctx oldest oldestName
          { st with usedPseudo := true, newestPseudo := max st.newestPseudo fd.mtime } rest
      else
        let st' :=
          if gtNewest fd.mtime st.newestInput then
            { st with newestInput := some fd.mtime, newestName := dependentFile }
          else st
        if newestGtOldest st'.newestInput oldest then
          .early (.outOfDate st'.newestName st'.newestInput oldestName oldest)
        else refInputsLoop w ctx oldest oldestName st' rest

/-- `checkUpToDateRelativeToInputs`. -/
def checkUpToDateRelativeToInputs (w : World) (cfg? : Option Cfg) (configFileName : String)
    (ctx : FMap Int) : CheckRes :=
  match cfg? with
  | none => .thrown "No config file"
  | some cfg =>
    match scanInputs w cfg configFileName cfg.fileNames ⟨false, none, "????", []⟩ with
    | .error m => .thrown m
    | .ok s1 =>
      if s1.missingFile then .status .unbuildable
      else
        let allOutputs := s1.outputs ++
          (match cfg.outFile with
           | none => []
           | some of => (if cfg.declaration then [replaceJsWithDts of] else []) ++ [of])
        match outputsLoop w s1.newestInput s1.newestName allOutputs none "" with
        | .early s => .status s
        | .cont oldest oldestName =>
          match referenceInputs w cfg with
          | .error m => .thrown m
          | .ok refIns =>
            match refInputsLoop w ctx oldest oldestName
                ⟨s1.newestInput, s1.newestName, false, -1⟩ refIns with
            | .thrown m => .thrown m
            | .early s => .status s
            | .cont st =>
              .status (if st.usedPseudo then
                .pseudoUpToDate (maxOpt st.newestInput st.newestPseudo)
              else .upToDate st.newestInput)

/-! ## Build-queue walk (`processBuildQueue`) -/

/-- Everything observable about one walk: the `(project, status)` pairs
delivered to the build callback, the final context, the (write-only)
`projectsNeedingBuild` record, whether the walk ran to completion, and a
propagated exception if one was thrown. -/
structure WalkOut where
  trace : List (String × Status)
  ctx : FMap Int
  pnb : List String
  keepGoing : Bool
  crashed : Option String
  deriving DecidableEq, Repr

/-- The inner `for (const proj of nextSet)` loop of `processBuildQueue`:
fetch the (unused) references of the project, run the analyzer, deliver
the status to the callback, and record the project in
`projectsNeedingBuild` when its status was not `up-to-date`. -/
def walkProjs (w : World) (dm : MapSt) (cb : String → Status → FMap Int → Bool × FMap Int) :
    List String → FMap Int → List String → WalkOut
  | [], ctx, pnb => ⟨[], ctx, pnb, true, none⟩
  | proj :: rest, ctx, pnb =>
    let _refs := getReferencesOf dm proj
    match checkUpToDateRelativeToInputs w (parseConfigFile w proj) proj ctx with
    | .thrown m => ⟨[], ctx, pnb, false, some m⟩
    | .status utd =>
      let r := cb proj utd ctx
      let pnb' := match utd with | .upToDate _ => pnb | _ => proj :: pnb
      if r.1 then
        let out := walkProjs w dm cb rest r.2 pnb'
        ⟨(proj, utd) :: out.trace, out.ctx, out.pnb, out.keepGoing, out.crashed⟩
      else ⟨[(proj, utd)], r.2, pnb', false, none⟩

/-- The outer `while (buildQueue.length > 0)` loop, after the queue has
been reversed so that the popped-last layer comes first. -/
def walkLayers (w : World) (dm : MapSt) (cb : String → Status → FMap Int → Bool × FMap Int) :
    List (List String) → FMap Int → List String → WalkOut
  | [], ctx, pnb => ⟨[], ctx, pnb, true, none⟩
  | layer :: restLayers, ctx, pnb =>
    let out := walkProjs w dm cb layer ctx pnb
    if out.keepGoing then
      let out2 := walkLayers w dm cb restLayers out.ctx out.pnb
      ⟨out.trace ++ out2.trace, out2.ctx, out2.pnb, out2.keepGoing, out2.crashed⟩
    else out

/-- `processBuildQueue`: clone the queue, create a fresh build context,
and pop layers from the end. -/
def processBuildQueue (w : World) (graphQueue : List (List String)) (dm : MapSt)
    (cb : String → Status → FMap Int → Bool × FMap Int) : WalkOut :=
  walkLayers w dm cb graphQueue.reverse [] []

/-- `handleBuildStatus` under `--dry` (and without `--force`): every
status is only reported; the callback returns `false` exactly for
`unbuildable` and never mutates the context. -/
def handleBuildStatusDry : String → Status → FMap Int → Bool × FMap Int :=
  fun _ s ctx => (match s with | .unbuildable => false | _ => true, ctx)

/-! ## Graph builder (`createDependencyGraph` / `enumerateReferences`)

The source recursion carries no visited set; the embedding adds a fuel
parameter that pays one unit per `enumerateReferences` call, so a `none`
result for every fuel amount is exactly a non-terminating traversal. -/

/-- The mutable state of `createDependencyGraph`: the layered queue, the
depth cursor, and the dependency mapper. -/
structure QSt where
  buildQueue : List (List String)
  pos : Nat
  mapper : MapSt
  deriving DecidableEq, Repr

/-- `buildQueue[i] = v`, creating intermediate layers on demand. -/
def setLayer : List (List String) → Nat → List String → List (List String)
  | [], 0, v => [v]
  | [], i + 1, v => [] :: setLayer [] i v
  | _ :: t, 0, v => v :: t
  | h :: t, i + 1, v => h :: setLayer t i v

/-- `buildQueue[buildQueuePosition] = buildQueue[buildQueuePosition] || []`
followed by the guarded push of the current file name. -/
def addToLevel (st : QSt) (fileName : String) : QSt :=
  let lvl := st.buildQueue.getD st.pos []
  if fileName ∈ lvl then { st with buildQueue := setLayer st.buildQueue st.pos lvl }
  else { st with buildQueue := setLayer st.buildQueue st.pos (lvl ++ [fileName]) }

/-- Model of `path.resolve(ref)`: reference targets in the model worlds
are already absolute resolved configuration paths. -/
def resolveRefPath (r : String) : String := r

mutual
/-- `enumerateReferences(fileName, root)`, fuel-indexed. -/
def enumRef (w : World) (fuel : Nat) (fileName : String) (root : Cfg) (st : QSt) : Option QSt :=
  match fuel with
  | 0 => none
  | fuel' + 1 =>
    let st := addToLevel st fileName
    match getProjectReferenceFileNames root with
    | none => some st
    | some refs =>
      let st := { st with pos := st.pos + 1 }
      match enumRefList w fuel' fileName refs st with
      | none => none
      | some st' => some { st' with pos := st'.pos - 1 }
termination_by (fuel, 0)

/-- The `for (const ref of refs)` loop inside `enumerateReferences`. -/
def enumRefList (w : World) (fuel : Nat) (fileName : String) (refs : List String) (st : QSt) :
    Option QSt :=
  match refs with
  | [] => some st
  | ref :: rest =>
    let st := { st with mapper := addReference fileName ref st.mapper }
    match parseConfigFile w ref with
    | none => enumRefList w fuel fileName rest st
    | some resolvedRef =>
      match enumRef w fuel (resolveRefPath ref) resolvedRef st with
      | none => none
      | some st' => enumRefList w fuel fileName rest st'
termination_by (fuel, refs.length + 1)
end

/-- The root loop of `createDependencyGraph` (parse each root, throw on
a parse failure, then traverse). -/
def enumRoots (w : World) (fuel : Nat) : List String → QSt → Option (Except String QSt)
  | [], st => some (.ok st)
  | root :: rest, st =>
    match parseConfigFile w root with
    | none => some (.error ("Could not parse " ++ root))
    | some config =>
      match enumRef w fuel (resolveRefPath root) config st with
      | none => none
      | some st' => enumRoots w fuel rest st'

/-- `createDependencyGraph`, fuel-indexed (`none` = the traversal did
not finish within `fuel` nested calls). -/
def createDependencyGraph (w : World) (fuel : Nat) (roots : List String) :
    Option (Except String (List (List String) × MapSt)) :=
  match enumRoots w fuel roots ⟨[], 0, emptyMapper⟩ with
  | none => none
  | some (.error m) => some (.error m)
  | some (.ok st) => some (.ok (removeDuplicatesFromBuildQueue st.buildQueue, st.mapper))

/-- The graph builder terminates on the given input: some finite fuel
suffices for the traversal to finish. -/
def graphBuildTerminates (w : World) (roots : List String) : Prop :=
  ∃ fuel res, createDependencyGraph w fuel roots = some res

/-- Reference chains out of `p` are shorter than `n` (every reference
whose configuration parses is bounded by the predecessor's bound). -/
inductive BoundedRefs (w : World) : Nat → String → Prop
  | step (n : Nat) (p : String) :
      (∀ cfg refs, parseConfigFile w p = some cfg →
        getProjectReferenceFileNames cfg = some refs →
        ∀ r ∈ refs, ∀ c, parseConfigFile w r = some c → BoundedRefs w n r) →
      BoundedRefs w (n + 1) p

/-! ## Pseudo-builder (`tryPseudoBuild` / `tryReusePrependedBuild`)

The sidecar descriptor is serialized with a concrete executable codec
standing in for `JSON.stringify` / `JSON.parse`; a sidecar whose text the
codec rejects models a `JSON.parse` exception. -/

/-- The persisted `.bundle_info` descriptor. -/
structure BundleInfo where
  originalOffset : Nat
  totalLength : Nat
  deriving DecidableEq, Repr

/-- Parse a natural number from characters. -/
def parseNatChars (cs : List Char) : Option Nat :=
  if cs = [] then none
  else cs.foldl
    (fun acc c => match acc with
      | none => none
      | some n => if c.isDigit then some (n * 10 + (c.toNat - 48)) else none)
    (some 0)

/-- Serialization of a descriptor (model of `JSON.stringify`). -/
def encodeInfo (i : BundleInfo) : String :=
  toString i.originalOffset ++ "," ++ toString i.totalLength

/-- Deserialization of a descriptor (model of `JSON.parse`; `none` is a
parse exception). -/
def decodeInfo (s : String) : Option BundleInfo :=
  match splitChar ',' s.data [] with
  | [a, b] =>
    match parseNatChars a.data, parseNatChars b.data with
    | some x, some y => some ⟨x, y⟩
    | _, _ => none
  | _ => none

/-- `resolveReferenceToConfigFileName`. -/
def resolveReferenceToConfigFileName (w : World) (referencingConfigFileName : String)
    (reference : PRef) : String :=
  let expectedLocationBase := joinUp referencingConfigFileName reference.path
  let withTsConfig := joinP expectedLocationBase "tsconfig.json"
  if existsAnyW w withTsConfig then withTsConfig else expectedLocationBase

/-- `getOutFileName` (no extension variant); the `.error` models the
`options.outFile!` non-null assertion blowing up. -/
def getOutFileName (configFilePath : String) (cfg : Cfg) : Except String String :=
  match cfg.outFile with
  | none => .error ("TypeError: outFile of " ++ configFilePath ++ " is undefined")
  | some of => .ok (pathResolve configFilePath of)

/-- Resolve one reference to its current output bundle content:
`parseConfigFile(refPath)`, `getOutFileName`, `readFileSync`. Each
failure is a thrown exception in the source. -/
def readRefOutput (w : World) (proj : String) (ref : PRef) : Except String String := do
  let refPath := resolveReferenceToConfigFileName w proj ref
  match parseConfigFile w refPath with
  | none => .error ("TypeError: cannot read options of undefined (" ++ refPath ++ ")")
  | some refConfigFile => do
    let referenceOutFile ← getOutFileName refPath refConfigFile
    readFileE w referenceOutFile

/-- The accumulation loop of `tryReusePrependedBuild`:
`output = readFileSync(referenceOutFile) + output` over the references
in declaration order. -/
def accumRefOutputs (w : World) (proj : String) : List PRef → String → Except String String
  | [], acc => .ok acc
  | ref :: rest, acc => do
    let c ← readRefOutput w proj ref
    accumRefOutputs w proj rest (c ++ acc)

/-- The content reached by prepending each element of `cs` in turn to an
initially empty accumulator. -/
def prependAll (cs : List String) : String :=
  cs.foldl (fun acc c => c ++ acc) ""

/-- `tryReusePrependedBuild`. Returns the reuse verdict and the updated
filesystem; `.error` is a propagated exception. -/
def tryReusePrependedBuild (w : World) (proj : String) (configFile : Cfg) (now : Int) :
    Except String (Bool × World) := do
  let outFilePath ← getOutFileName proj configFile
  if fileExistsW w outFilePath = false then pure (false, w)
  else do
    let bundleInfoPath := changeExtension outFilePath ".bundle_info"
    if fileExistsW w bundleInfoPath = false then pure (false, w)
    else do
      let rawInfo ← readFileE w bundleInfoPath
      let bundleInfo ←
        match decodeInfo rawInfo with
        | some i => pure i
        | none => Except.error ("SyntaxError: JSON.parse " ++ bundleInfoPath)
      let outFileContent ← readFileE w outFilePath
      if outFileContent.data.length ≠ bundleInfo.totalLength then pure (false, w)
      else do
        let originalContent := String.mk (outFileContent.data.drop bundleInfo.originalOffset)
        let refs ←
          match configFile.references with
          | some rs => pure rs
          | none => Except.error ("TypeError: references of " ++ proj ++ " is not iterable")
        let output ← accumRefOutputs w proj refs ""
        let newOffset := output.data.length
        let output := output ++ originalContent
        let w := writeFileW w outFilePath output now
        let newTotal := output.data.length
        let w := writeFileW w bundleInfoPath (encodeInfo ⟨newOffset, newTotal⟩) now
        pure (true, w)

/-- `updateTimestamp`: stat (throws when absent), then `utimes`; returns
the prior mtime. -/
def updateTimestamp (w : World) (fileName : String) (date : Int) :
    Except String (Int × World) :=
  match w.files.lookup fileName with
  | none => .error ("ENOENT: " ++ fileName)
  | some fd => .ok (fd.mtime, setMtimeW w fileName date)

/-- The touch-forward loop of `tryPseudoBuild`: every output's mtime is
set to `now` and its prior mtime recorded in `unchangedOutputs`. -/
def touchOutputs (now : Int) : List String → World → FMap Int →
    Except String (World × FMap Int)
  | [], w, ctx => .ok (w, ctx)
  | output :: rest, w, ctx => do
    let r ← updateTimestamp w output now
    touchOutputs now rest r.2 (fmSetValue cwdRoot ctx output r.1)

/-- `tryPseudoBuild`. Returns the verdict plus the updated filesystem
and build context; `.error` is a propagated exception. -/
def tryPseudoBuild (w : World) (proj : String) (now : Int) (ctx : FMap Int) :
    Except String (Bool × World × FMap Int) :=
  match parseConfigFile w proj with
  | none => .ok (false, w, ctx)
  | some configFile =>
    let hasPrepend :=
      match configFile.references with
      | some rs => rs.any PRef.prepend
      | none => false
    if hasPrepend then do
      let r ← tryReusePrependedBuild w proj configFile now
      if r.1 then do
        let outs ← getAllOutputFilenames r.2 proj
        match outs.filter isDeclarationFile with
        | [] => pure (true, r.2, ctx)
        | dtsFileName :: _ => do
          let u ← updateTimestamp r.2 dtsFileName now
          pure (true, u.2, fmSetValue cwdRoot ctx dtsFileName u.1)
      else pure (false, r.2, ctx)
    else do
      let outputs ← getAllOutputFilenames w proj
      let r ← touchOutputs now outputs w ctx
      pure (true, r.1, r.2)

/-! ## Theorems -/

/-! ### C10 — `FileMap` round-trip modulo path normalization -/

/-- C10: `FileMap` round-trips modulo path normalization: after
`setValue(f, v)`, both `getValue(g)` and `getValueOrUndefined(g)` return
`v` for every `g` with the same normalized resolved path as `f`; and
`getValue(g)` throws exactly when no value is stored under `g`'s
normalized path, in which case `getValueOrUndefined(g)` returns
`undefined`. -/
theorem fileMap_roundtrip_modulo_normalization {α : Type} :
    (∀ (cwd : String) (m : FMap α) (f g : String) (v : α),
      normalizeP cwd g = normalizeP cwd f →
      fmGetValue cwd (fmSetValue cwd m f v) g = .ok v ∧
      fmGetValueOrUndefined cwd (fmSetValue cwd m f v) g = some v) ∧
    (∀ (cwd : String) (m : FMap α) (g : String),
      ((∃ e, fmGetValue cwd m g = .error e) ↔ m.lookup (normalizeP cwd g) = none) ∧
      (m.lookup (normalizeP cwd g) = none → fmGetValueOrUndefined cwd m g = none)) := by
  constructor
  · intro cwd m f g v h
    constructor
    · simp only [fmGetValue, fmSetValue, h, lookup_aset_self]
    · simp only [fmGetValueOrUndefined, fmSetValue, h, lookup_aset_self]
  · intro cwd m g
    constructor
    · constructor
      · rintro ⟨e, he⟩
        by_contra hn
        obtain ⟨v, hv⟩ := Option.ne_none_iff_exists'.1 hn
        simp [fmGetValue, hv] at he
      · intro hn
        refine ⟨"No value corresponding to " ++ g ++ " exists in this map", ?_⟩
        simp [fmGetValue, hn]
    · intro hn
      simp [fmGetValueOrUndefined, hn]

/-- Witness for C10 at a concrete map and two spellings of one path. -/
theorem fileMap_roundtrip_witness :
    fmGetValue "/cwd" (fmSetValue "/cwd" ([] : FMap Int) "/a/./b" 3) "/a/b" = .ok 3 ∧
    fmGetValueOrUndefined "/cwd" (fmSetValue "/cwd" ([] : FMap Int) "/a/./b" 3) "/a/b" = some 3 :=
  (fileMap_roundtrip_modulo_normalization (α := Int)).1 "/cwd" [] "/a/./b" "/a/b" 3 (by decide)

/-! ### C8 — build-queue duplicate removal -/

theorem removeDuplicates_length (q : List (List String)) :
    (removeDuplicatesFromBuildQueue q).length = q.length := by
  induction q with
  | nil => rfl
  | cons layer rest ih => simp [removeDuplicatesFromBuildQueue, ih]

theorem removeDuplicates_getLast? (q : List (List String)) :
    (removeDuplicatesFromBuildQueue q).getLast? = q.getLast? := by
  induction q with
  | nil => rfl
  | cons layer rest ih =>
    cases rest with
    | nil =>
      simp [removeDuplicatesFromBuildQueue, occursInLater]
    | cons l2 rest2 =>
      rw [removeDuplicatesFromBuildQueue]
      rw [show removeDuplicatesFromBuildQueue (l2 :: rest2) =
        (l2.filter (fun fn => !occursInLater fn rest2)) :: removeDuplicatesFromBuildQueue rest2 from rfl]
      rw [List.getLast?_cons_cons]
      rw [← show removeDuplicatesFromBuildQueue (l2 :: rest2) =
        (l2.filter (fun fn => !occursInLater fn rest2)) :: removeDuplicatesFromBuildQueue rest2 from rfl]
      rw [ih, List.getLast?_cons_cons]

theorem exists_mem_iff_getD (rs : List (List String)) (x : String) :
    (∃ l ∈ rs, x ∈ l) ↔ (∃ j, x ∈ rs.getD j []) := by
  constructor
  · rintro ⟨l, hl, hx⟩
    obtain ⟨n, hn, rfl⟩ := List.mem_iff_getElem.1 hl
    refine ⟨n, ?_⟩
    rwa [List.getD_eq_getElem?_getD, List.getElem?_eq_getElem hn]
  · rintro ⟨j, hx⟩
    by_cases hj : j < rs.length
    · refine ⟨rs[j], List.getElem_mem hj, ?_⟩
      rwa [List.getD_eq_getElem?_getD, List.getElem?_eq_getElem hj] at hx
    · rw [List.getD_eq_getElem?_getD, List.getElem?_eq_none (by omega)] at hx
      simp at hx

/-- C8: after `removeDuplicatesFromBuildQueue`, the queue keeps its
shape, an id sits in layer `i` iff it sat there before and occurs in no
later layer (so the rightmost occurrence survives, every earlier one is
dropped, and each id occupies at most one layer), and the last layer is
untouched. -/
theorem removeDuplicatesFromBuildQueue_spec (q : List (List String)) :
    (removeDuplicatesFromBuildQueue q).length = q.length ∧
    (removeDuplicatesFromBuildQueue q).getLast? = q.getLast? ∧
    ∀ (i : Nat) (pid : String),
      pid ∈ (removeDuplicatesFromBuildQueue q).getD i [] ↔
        (pid ∈ q.getD i [] ∧ ∀ k, i < k → pid ∉ q.getD k []) := by
  refine ⟨removeDuplicates_length q, removeDuplicates_getLast? q, ?_⟩
  intro i pid
  induction q generalizing i with
  | nil => simp [removeDuplicatesFromBuildQueue]
  | cons layer rest ih =>
    cases i with
    | zero =>
      rw [show removeDuplicatesFromBuildQueue (layer :: rest) =
        (layer.filter (fun fn => !occursInLater fn rest)) :: removeDuplicatesFromBuildQueue rest from rfl]
      rw [List.getD_cons_zero, List.getD_cons_zero]
      rw [List.mem_filter]
      constructor
      · rintro ⟨hmem, hocc⟩
        refine ⟨hmem, ?_⟩
        intro k hk
        cases k with
        | zero => omega
        | succ j =>
          rw [List.getD_cons_succ]
          intro hmemj
          have : occursInLater pid rest = true := by
            rw [occursInLater, List.any_eq_true]
            obtain ⟨l, hl, hx⟩ := (exists_mem_iff_getD rest pid).2 ⟨j, hmemj⟩
            exact ⟨l, hl, by simpa using hx⟩
          simp [this] at hocc
      · rintro ⟨hmem, hlater⟩
        refine ⟨hmem, ?_⟩
        have : occursInLater pid rest = false := by
          by_contra hne
          have htrue : occursInLater pid rest = true := by
            cases h : occursInLater pid rest
            · exact absurd h hne
            · rfl
          rw [occursInLater, List.any_eq_true] at htrue
          obtain ⟨l, hl, hx⟩ := htrue
          obtain ⟨j, hj⟩ := (exists_mem_iff_getD rest pid).1 ⟨l, hl, by simpa using hx⟩
          exact hlater (j + 1) (by omega) (by rwa [List.getD_cons_succ])
        simp [this]
    | succ j =>
      rw [show removeDuplicatesFromBuildQueue (layer :: rest) =
        (layer.filter (fun fn => !occursInLater fn rest)) :: removeDuplicatesFromBuildQueue rest from rfl]
      rw [List.getD_cons_succ, List.getD_cons_succ]
      rw [ih j]
      constructor
      · rintro ⟨hmem, hlater⟩
        refine ⟨hmem, ?_⟩
        intro k hk
        cases k with
        | zero => omega
        | succ k' =>
          rw [List.getD_cons_succ]
          exact hlater k' (by omega)
      · rintro ⟨hmem, hlater⟩
        refine ⟨hmem, ?_⟩
        intro k hk
        have := hlater (k + 1) (by omega)
        rwa [List.getD_cons_succ] at this

/-! ### C1 — the walk never produces `older-than-dependency`

Scenario from the specification: two projects, `B` references `A`, one
output of `A` deleted, `--dry` walk. The source records
`projectsNeedingBuild` but never reads it, so `B` is classified from the
filesystem alone. -/

/-- Project `A` of the dry-run scenario. -/
def c1CfgA : Cfg :=
  { fileNames := ["/w/A/a.ts"], outDir := some "/w/A", declaration := true }

/-- Project `B` of the dry-run scenario, referencing `A`. -/
def c1CfgB : Cfg :=
  { fileNames := ["/w/B/b.ts"], outDir := some "/w/B", declaration := true
    references := some [⟨"/w/A/tsconfig.json", false⟩] }

/-- The stale tree: `A`'s JavaScript output has been deleted, everything
of `B` is newer than its inputs. -/
def c1World : World :=
  { configs := [("/w/A/tsconfig.json", c1CfgA), ("/w/B/tsconfig.json", c1CfgB)]
    files := [("/w/A/a.ts", ⟨"", 1⟩), ("/w/A/a.d.ts", ⟨"", 5⟩),
              ("/w/B/b.ts", ⟨"", 1⟩), ("/w/B/b.d.ts", ⟨"", 6⟩), ("/w/B/b.js", ⟨"", 6⟩)] }

/-- The dependency map the graph builder would record for the scenario. -/
def c1Mapper : MapSt :=
  addReference "/w/B/tsconfig.json" "/w/A/tsconfig.json" emptyMapper

/-- The layered queue: `B`'s layer first (popped last), `A`'s last. -/
def c1Queue : List (List String) := [["/w/B/tsconfig.json"], ["/w/A/tsconfig.json"]]

/-- C1: in the dry walk over the stale tree, `A` is delivered `missing`
(so its status is not up-to-date and it lands in `projectsNeedingBuild`),
yet the status delivered for its consumer `B`, processed afterwards, is
`up-to-date` — never `older-than-dependency` naming `A`. -/
theorem dryWalk_delivers_upToDate_not_olderThanDependency :
    (processBuildQueue c1World c1Queue c1Mapper handleBuildStatusDry).trace =
      [("/w/A/tsconfig.json", Status.missing "/w/A/a.js"),
       ("/w/B/tsconfig.json", Status.upToDate (some 5))] ∧
    (processBuildQueue c1World c1Queue c1Mapper handleBuildStatusDry).pnb =
      ["/w/A/tsconfig.json"] ∧
    ∀ d, ("/w/B/tsconfig.json", Status.olderThanDependency d) ∉
      (processBuildQueue c1World c1Queue c1Mapper handleBuildStatusDry).trace := by
  refine ⟨by decide, by decide, ?_⟩
  intro d
  have h : (processBuildQueue c1World c1Queue c1Mapper handleBuildStatusDry).trace =
      [("/w/A/tsconfig.json", Status.missing "/w/A/a.js"),
       ("/w/B/tsconfig.json", Status.upToDate (some 5))] := by decide
  rw [h]
  simp

/-! ### C3 — upstream `.js` outputs are never reference inputs

`collectRefInputs` iterates `getOutputDeclarationFilenames`, which has
already filtered the upstream outputs down to `.d.ts`, so the
`outFile || .d.ts` keep-condition never sees an upstream `.js`. -/

/-- Upstream project `A` with a bundle and a declaration output. -/
def c3CfgA : Cfg :=
  { fileNames := ["/w/A/a.ts"], outFile := some "/w/A/a.js", declaration := true }

/-- Downstream project `B`, itself using `outFile` (a concatenating
project, exactly the case whose `.js` inputs the comment says matter). -/
def c3CfgB : Cfg :=
  { fileNames := ["/w/B/b.ts"], outFile := some "/w/B/b.js"
    references := some [⟨"/w/A/tsconfig.json", false⟩] }

/-- The world of the two projects. -/
def c3World : World :=
  { configs := [("/w/A/tsconfig.json", c3CfgA), ("/w/B/tsconfig.json", c3CfgB)]
    files := [] }

/-- C3: although the analyzed project `B` sets `outFile` and its
reference `A` emits both `/w/A/a.js` and `/w/A/a.d.ts`, the collected
reference inputs contain only the `.d.ts` — the upstream `.js` output is
never part of the comparison set. -/
theorem referenceInputs_exclude_upstream_js :
    c3CfgB.outFile = some "/w/B/b.js" ∧
    getAllOutputFilenames c3World "/w/A/tsconfig.json" =
      .ok ["/w/A/a.js", "/w/A/a.d.ts"] ∧
    referenceInputs c3World c3CfgB = .ok ["/w/A/a.d.ts"] :=
  ⟨rfl, rfl, rfl⟩

/-! ### C7 — expected outputs of a non-`outFile` project

`getAllOutputFilenames` pushes the declaration-output name for every
non-`.d.ts` input unconditionally; the `declaration` option is not
consulted in the non-`outFile` branch (unlike the analyzer's inline
enumeration). The `outDir`-missing error is confirmed. -/

/-- The output path as the specification words it:
`outDir + (inputFile − rootDir)` with the trailing `.ts`/`.tsx`
substituted by the requested extension. -/
def specOutputPath (cfg : Cfg) (configFileName od input ext : String) : String :=
  replaceTsx (pathResolve od (pathRelative (rootDirOfOptions cfg configFileName) input)) ext

theorem perInputOutputs_eq_spec (cfg : Cfg) (name od : String) (h : cfg.outDir = some od) :
    ∀ inputs : List String,
      perInputOutputs cfg name inputs = .ok
        ((inputs.filter (fun f => !isDeclarationFile f)).flatMap
          (fun f => [specOutputPath cfg name od f ".d.ts", specOutputPath cfg name od f ".js"])) := by
  intro inputs
  induction inputs with
  | nil => rfl
  | cons inputFile rest ih =>
    by_cases hd : isDeclarationFile inputFile = true
    · simp [perInputOutputs, hd, ih]
    · have hd' : isDeclarationFile inputFile = false := by
        cases h' : isDeclarationFile inputFile
        · rfl
        · exact absurd h' hd
      simp only [perInputOutputs, hd', Bool.false_eq_true, if_false, List.filter_cons,
        Bool.not_false, if_true, List.flatMap_cons]
      simp only [getOutputDeclarationFileName, getOutputJavaScriptFileName,
        getRelativeOutputFileName, h, Except.map, specOutputPath]
      rw [ih]
      rfl

/-- C7 counterexample: a project without `outFile` and with
`declaration` unset still gets a `.d.ts` expected output for its input,
contradicting "with `.d.ts` only when the `declaration` option is set". -/
def c7Cfg : Cfg :=
  { fileNames := ["/p/src/a.ts"], outDir := some "/o", rootDir := some "/p/src" }

/-- World holding only the C7 counterexample project. -/
def c7World : World := { configs := [("/p/tsconfig.json", c7Cfg)], files := [] }

/-- A non-`outFile` project with no `outDir`, for the error clause. -/
def c7bCfg : Cfg := { fileNames := ["/q/a.ts"] }

/-- World holding the `outDir`-less project. -/
def c7bWorld : World := { configs := [("/q/tsconfig.json", c7bCfg)], files := [] }

/-- C7 counterexample: `declaration` is off, yet the expected output set
of the project contains the `.d.ts` path `/o/a.d.ts`. -/
theorem allOutputs_include_dts_without_declaration :
    c7Cfg.declaration = false ∧
    getAllOutputFilenames c7World "/p/tsconfig.json" = .ok ["/o/a.d.ts", "/o/a.js"] ∧
    isDeclarationFile "/o/a.d.ts" = true :=
  ⟨rfl, rfl, rfl⟩

/-- C7 (amended): for a project without `outFile`, the expected output
set contains, for every non-`.d.ts` input, the `.d.ts` path and the
`.js` path under `outDir + (input − rootDir)` — the `.d.ts`
unconditionally, whether or not `declaration` is set; and resolving any
output path with `outDir` unset fails with the configuration error. -/
theorem getAllOutputFilenames_no_outFile_spec (w : World) (name : String) (cfg : Cfg)
    (hp : parseConfigFile w name = some cfg) (ho : cfg.outFile = none) :
    (∀ od, cfg.outDir = some od →
      getAllOutputFilenames w name = .ok
        ((cfg.fileNames.filter (fun f => !isDeclarationFile f)).flatMap
          (fun f => [specOutputPath cfg name od f ".d.ts", specOutputPath cfg name od f ".js"]))) ∧
    (cfg.outDir = none → ∀ input,
      getRelativeOutputFileName input cfg name = .error (name ++ " must set 'outDir'")) := by
  constructor
  · intro od hod
    simp only [getAllOutputFilenames, hp, ho]
    exact perInputOutputs_eq_spec cfg name od hod cfg.fileNames
  · intro hod input
    rw [getRelativeOutputFileName, hod]

/-- Witness for the amended C7 at the two concrete projects. -/
theorem getAllOutputFilenames_no_outFile_witness :
    getAllOutputFilenames c7World "/p/tsconfig.json" = .ok
      ((c7Cfg.fileNames.filter (fun f => !isDeclarationFile f)).flatMap
        (fun f => [specOutputPath c7Cfg "/p/tsconfig.json" "/o" f ".d.ts",
                   specOutputPath c7Cfg "/p/tsconfig.json" "/o" f ".js"])) ∧
    getRelativeOutputFileName "/q/a.ts" c7bCfg "/q/tsconfig.json" =
      .error ("/q/tsconfig.json" ++ " must set 'outDir'") :=
  ⟨(getAllOutputFilenames_no_outFile_spec c7World "/p/tsconfig.json" c7Cfg rfl rfl).1 "/o" rfl,
   (getAllOutputFilenames_no_outFile_spec c7bWorld "/q/tsconfig.json" c7bCfg rfl rfl).2 rfl "/q/a.ts"⟩

/-! ### C2 — pseudo-timestamp reconciliation and final classification -/

/-- C2: (1) when `unchangedOutputs` holds a prior mtime `p` for a
reference input and the oldest output is at least as new as `p`, the
loop sets `usedPseudo`, folds the file's current mtime into
`newestPseudo`, leaves the newest-input tracker untouched and continues
with the next file; (2) when the loop runs to completion the analyzer
classifies the project `pseudo-up-to-date` with timestamp
`max(newestInput, newestPseudoInput)` if `usedPseudo` was set, else
`up-to-date` with timestamp `newestInput`. -/
theorem pseudoTimestamp_reconciliation_and_classification :
    (∀ (w : World) (ctx : FMap Int) (oldest : Option Int) (oldestName : String)
       (st : RefSt) (f : String) (rest : List String) (fd : FileD) (p : Int),
      w.files.lookup f = some fd →
      fmGetValueOrUndefined cwdRoot ctx f = some p →
      oldestGe oldest p = true →
      refInputsLoop w ctx oldest oldestName st (f :: rest) =
        refInputsLoop w ctx oldest oldestName
          { st with usedPseudo := true, newestPseudo := max st.newestPseudo fd.mtime } rest) ∧
    (∀ (w : World) (cfg : Cfg) (name : String) (ctx : FMap Int) (s1 : ScanSt)
       (oldest : Option Int) (oldestName : String) (refIns : List String) (st : RefSt),
      scanInputs w cfg name cfg.fileNames ⟨false, none, "????", []⟩ = .ok s1 →
      s1.missingFile = false →
      outputsLoop w s1.newestInput s1.newestName
        (s1.outputs ++
          (match cfg.outFile with
           | none => []
           | some of => (if cfg.declaration then [replaceJsWithDts of] else []) ++ [of]))
        none "" = .cont oldest oldestName →
      referenceInputs w cfg = .ok refIns →
      refInputsLoop w ctx oldest oldestName ⟨s1.newestInput, s1.newestName, false, -1⟩ refIns =
        .cont st →
      checkUpToDateRelativeToInputs w (some cfg) name ctx =
        .status (if st.usedPseudo then .pseudoUpToDate (maxOpt st.newestInput st.newestPseudo)
                 else .upToDate st.newestInput)) := by
  constructor
  · intro w ctx oldest oldestName st f rest fd p hlook hget hge
    simp only [refInputsLoop, hlook, hget, hge, if_true]
  · intro w cfg name ctx s1 oldest oldestName refIns st h1 h2 h3 h4 h5
    simp only [checkUpToDateRelativeToInputs, h1, h2, h3, h4, h5, Bool.false_eq_true,
      if_false]

/-! The concrete pseudo-cascade scenario used as the C2 witness. -/

/-- Downstream project of the pseudo-cascade scenario. -/
def c2Cfg : Cfg :=
  { fileNames := ["/r/b.ts"], outDir := some "/r/out"
    references := some [⟨"/r/A/tsconfig.json", false⟩] }

/-- Upstream project whose `.d.ts` was rewritten byte-identically. -/
def c2CfgA : Cfg :=
  { fileNames := ["/r/A/a.ts"], outDir := some "/r/A", declaration := true }

/-- A world where the upstream `.d.ts` has mtime 7, the downstream
output mtime 5, and the prior recorded mtime of the `.d.ts` is 3. -/
def c2World : World :=
  { configs := [("/r/tsconfig.json", c2Cfg), ("/r/A/tsconfig.json", c2CfgA)]
    files := [("/r/b.ts", ⟨"", 1⟩), ("/r/out/b.js", ⟨"", 5⟩), ("/r/A/a.d.ts", ⟨"", 7⟩)] }

/-- The `unchangedOutputs` memory of the scenario. -/
def c2Ctx : FMap Int := [("/r/A/a.d.ts", 3)]

/-- Witness for C2: the pseudo branch fires on the concrete scenario
and the project is classified `pseudo-up-to-date` at time 7. -/
theorem pseudoTimestamp_reconciliation_witness :
    refInputsLoop c2World c2Ctx (some 5) "/r/out/b.js"
        ⟨some 1, "/r/b.ts", false, -1⟩ ["/r/A/a.d.ts"] =
      refInputsLoop c2World c2Ctx (some 5) "/r/out/b.js"
        ⟨some 1, "/r/b.ts", true, max (-1) 7⟩ [] ∧
    checkUpToDateRelativeToInputs c2World (some c2Cfg) "/r/tsconfig.json" c2Ctx =
      .status (.pseudoUpToDate 7) := by
  constructor
  · exact pseudoTimestamp_reconciliation_and_classification.1 c2World c2Ctx (some 5)
      "/r/out/b.js" ⟨some 1, "/r/b.ts", false, -1⟩ "/r/A/a.d.ts" [] ⟨"", 7⟩ 3
      rfl rfl (by decide)
  · exact pseudoTimestamp_reconciliation_and_classification.2 c2World c2Cfg
      "/r/tsconfig.json" c2Ctx ⟨false, some 1, "/r/b.ts", ["/r/out/b.js"]⟩ (some 5)
      "/r/out/b.js" ["/r/A/a.d.ts"] ⟨some 1, "/r/b.ts", true, 7⟩
      rfl rfl rfl rfl rfl

/-! ### C9 — the dependency mapper -/

theorem mem_addEntryMap_self (m : List (String × List String)) (k e : String) :
    e ∈ ((addEntryMap m k e).lookup k).getD [] := by
  rw [addEntryMap]
  rw [lookup_aset_self]
  by_cases h : e ∈ ((m.lookup k).getD [])
  · simp [h]
  · simp [h]

theorem mem_addEntryMap_mono (m : List (String × List String)) (k e q x : String)
    (h : x ∈ ((m.lookup q).getD [])) : x ∈ (((addEntryMap m k e).lookup q).getD []) := by
  rw [addEntryMap]
  by_cases hq : q = k
  · subst hq
    rw [lookup_aset_self]
    by_cases he : e ∈ ((m.lookup q).getD [])
    · simpa [he] using h
    · simp only [he, if_false]
      exact List.mem_append_left _ h
  · rw [lookup_aset_other _ _ _ _ hq]
    exact h

theorem addEntryMap_idem (m : List (String × List String)) (k e : String) :
    addEntryMap (addEntryMap m k e) k e = addEntryMap m k e := by
  have hl : (addEntryMap m k e).lookup k =
      some (if e ∈ (m.lookup k).getD [] then (m.lookup k).getD []
            else (m.lookup k).getD [] ++ [e]) := by
    rw [addEntryMap]
    exact lookup_aset_self _ _ _
  have hmem : e ∈ (if e ∈ (m.lookup k).getD [] then (m.lookup k).getD []
      else (m.lookup k).getD [] ++ [e]) := by
    by_cases he : e ∈ (m.lookup k).getD []
    · simp [he]
    · simp [he]
  conv_lhs => rw [addEntryMap]
  rw [hl]
  simp only [Option.getD_some]
  rw [if_pos hmem]
  exact aset_lookup_eq _ _ _ hl

theorem mem_addEntryKeys_left (ks : List String) (k e : String) :
    k ∈ addEntryKeys ks k e := by
  have h1 : k ∈ (if k ∈ ks then ks else ks ++ [k]) := by
    by_cases hk : k ∈ ks
    · simp [hk]
    · simp [hk]
  rw [addEntryKeys]
  by_cases he : e ∈ (if k ∈ ks then ks else ks ++ [k])
  · rw [if_pos he]
    exact h1
  · rw [if_neg he]
    exact List.mem_append_left _ h1

theorem mem_addEntryKeys_right (ks : List String) (k e : String) :
    e ∈ addEntryKeys ks k e := by
  rw [addEntryKeys]
  by_cases he : e ∈ (if k ∈ ks then ks else ks ++ [k])
  · rw [if_pos he]
    exact he
  · rw [if_neg he]
    exact List.mem_append_right _ (by simp)

theorem mem_addEntryKeys_mono (ks : List String) (k e x : String) (h : x ∈ ks) :
    x ∈ addEntryKeys ks k e := by
  have h1 : x ∈ (if k ∈ ks then ks else ks ++ [k]) := by
    by_cases hk : k ∈ ks
    · simpa [hk] using h
    · simp only [hk, if_false]
      exact List.mem_append_left _ h
  rw [addEntryKeys]
  by_cases he : e ∈ (if k ∈ ks then ks else ks ++ [k])
  · rw [if_pos he]
    exact h1
  · rw [if_neg he]
    exact List.mem_append_left _ h1

theorem addEntryKeys_of_mem (ks : List String) (k e : String)
    (hk : k ∈ ks) (he : e ∈ ks) : addEntryKeys ks k e = ks := by
  simp [addEntryKeys, hk, he]

/-- `addReference` is idempotent, on any mapper state. -/
theorem addReference_idem (st : MapSt) (c p : String) :
    addReference c p (addReference c p st) = addReference c p st := by
  simp only [addReference]
  have hc2p := addEntryMap_idem st.childToParents (pnormalize c) (pnormalize p)
  have hp2c := addEntryMap_idem st.parentToChildren (pnormalize p) (pnormalize c)
  have hkeys : addEntryKeys (addEntryKeys
      (addEntryKeys (addEntryKeys st.allKeys (pnormalize c) (pnormalize p))
        (pnormalize p) (pnormalize c)) (pnormalize c) (pnormalize p))
      (pnormalize p) (pnormalize c) =
      addEntryKeys (addEntryKeys st.allKeys (pnormalize c) (pnormalize p))
        (pnormalize p) (pnormalize c) := by
    have h1 : pnormalize c ∈ addEntryKeys
        (addEntryKeys st.allKeys (pnormalize c) (pnormalize p)) (pnormalize p) (pnormalize c) :=
      mem_addEntryKeys_right _ _ _
    have h2 : pnormalize p ∈ addEntryKeys
        (addEntryKeys st.allKeys (pnormalize c) (pnormalize p)) (pnormalize p) (pnormalize c) :=
      mem_addEntryKeys_left _ _ _
    rw [addEntryKeys_of_mem _ _ _ h1 h2, addEntryKeys_of_mem _ _ _ h2 h1]
  simp only [hc2p, hp2c, hkeys]

/-- Folding a pair sequence into the fresh mapper. -/
def addAllFrom (st : MapSt) (ps : List (String × String)) : MapSt :=
  ps.foldl (fun s cp => addReference cp.1 cp.2 s) st

/-- All the `addReference` calls of a run, applied to the new mapper. -/
def addAll (ps : List (String × String)) : MapSt := addAllFrom emptyMapper ps

theorem getReferencesOf_addReference_self (st : MapSt) (c p : String) :
    pnormalize p ∈ getReferencesOf (addReference c p st) c := by
  simp only [getReferencesOf, addReference]
  exact mem_addEntryMap_self _ _ _

theorem getReferencesTo_addReference_self (st : MapSt) (c p : String) :
    pnormalize c ∈ getReferencesTo (addReference c p st) p := by
  simp only [getReferencesTo, addReference]
  exact mem_addEntryMap_self _ _ _

theorem getReferencesOf_addReference_mono (st : MapSt) (c' p' x q : String)
    (h : x ∈ getReferencesOf st q) : x ∈ getReferencesOf (addReference c' p' st) q := by
  simp only [getReferencesOf, addReference] at h ⊢
  exact mem_addEntryMap_mono _ _ _ _ _ h

theorem getReferencesTo_addReference_mono (st : MapSt) (c' p' x q : String)
    (h : x ∈ getReferencesTo st q) : x ∈ getReferencesTo (addReference c' p' st) q := by
  simp only [getReferencesTo, addReference] at h ⊢
  exact mem_addEntryMap_mono _ _ _ _ _ h

theorem getKeys_addReference_mono (st : MapSt) (c' p' x : String)
    (h : x ∈ getKeys st) : x ∈ getKeys (addReference c' p' st) := by
  simp only [getKeys, addReference] at h ⊢
  exact mem_addEntryKeys_mono _ _ _ _ (mem_addEntryKeys_mono _ _ _ _ h)

theorem getKeys_addReference_child (st : MapSt) (c p : String) :
    pnormalize c ∈ getKeys (addReference c p st) := by
  simp only [getKeys, addReference]
  exact mem_addEntryKeys_mono _ _ _ _ (mem_addEntryKeys_left _ _ _)

theorem getKeys_addReference_parent (st : MapSt) (c p : String) :
    pnormalize p ∈ getKeys (addReference c p st) := by
  simp only [getKeys, addReference]
  exact mem_addEntryKeys_left _ _ _

theorem getReferencesOf_addAllFrom_mono (ps : List (String × String)) (st : MapSt)
    (x q : String) (h : x ∈ getReferencesOf st q) :
    x ∈ getReferencesOf (addAllFrom st ps) q := by
  induction ps generalizing st with
  | nil => exact h
  | cons hd tl ih => exact ih _ (getReferencesOf_addReference_mono _ _ _ _ _ h)

theorem getReferencesTo_addAllFrom_mono (ps : List (String × String)) (st : MapSt)
    (x q : String) (h : x ∈ getReferencesTo st q) :
    x ∈ getReferencesTo (addAllFrom st ps) q := by
  induction ps generalizing st with
  | nil => exact h
  | cons hd tl ih => exact ih _ (getReferencesTo_addReference_mono _ _ _ _ _ h)

theorem getKeys_addAllFrom_mono (ps : List (String × String)) (st : MapSt)
    (x : String) (h : x ∈ getKeys st) : x ∈ getKeys (addAllFrom st ps) := by
  induction ps generalizing st with
  | nil => exact h
  | cons hd tl ih => exact ih _ (getKeys_addReference_mono _ _ _ _ h)

/-- Every stored adjacency list is duplicate-free. -/
def MapListsNodup (m : List (String × List String)) : Prop :=
  ∀ k arr, m.lookup k = some arr → arr.Nodup

theorem addEntryMap_nodup (m : List (String × List String)) (k e : String)
    (h : MapListsNodup m) : MapListsNodup (addEntryMap m k e) := by
  intro q arr harr
  rw [addEntryMap] at harr
  by_cases hq : q = k
  · subst hq
    rw [lookup_aset_self] at harr
    have harrN : ((m.lookup q).getD []).Nodup := by
      cases hm : m.lookup q with
      | none => simp
      | some a => simpa using h q a hm
    by_cases he : e ∈ ((m.lookup q).getD [])
    · simp only [he, if_true] at harr
      cases harr
      exact harrN
    · simp only [he, if_false] at harr
      cases harr
      simp only [List.nodup_append, List.nodup_cons, List.nodup_nil]
      exact ⟨harrN, by simp, by simpa using he⟩
  · rw [lookup_aset_other _ _ _ _ hq] at harr
    exact h q arr harr

theorem mapper_nodup_invariant (ps : List (String × String)) (st : MapSt)
    (hc : MapListsNodup st.childToParents) (hp : MapListsNodup st.parentToChildren) :
    MapListsNodup (addAllFrom st ps).childToParents ∧
    MapListsNodup (addAllFrom st ps).parentToChildren := by
  induction ps generalizing st with
  | nil => exact ⟨hc, hp⟩
  | cons hd tl ih =>
    exact ih _ (addEntryMap_nodup _ _ _ hc) (addEntryMap_nodup _ _ _ hp)

theorem getReferencesOf_nodup_of_inv (st : MapSt) (hc : MapListsNodup st.childToParents)
    (x : String) : (getReferencesOf st x).Nodup := by
  rw [getReferencesOf]
  cases hm : st.childToParents.lookup (pnormalize x) with
  | none => simp
  | some arr => simpa using hc _ arr hm

theorem getReferencesTo_nodup_of_inv (st : MapSt) (hp : MapListsNodup st.parentToChildren)
    (x : String) : (getReferencesTo st x).Nodup := by
  rw [getReferencesTo]
  cases hm : st.parentToChildren.lookup (pnormalize x) with
  | none => simp
  | some arr => simpa using hp _ arr hm

/-- C9: after any sequence of `addReference` calls on a fresh mapper,
every canonical pair passed is present in both directions and both ids
are in the key set; every returned adjacency list is duplicate-free;
and `addReference` is idempotent on any state. -/
theorem addReference_bidirectional_idempotent :
    (∀ (ps : List (String × String)) (c p : String),
      (c, p) ∈ ps → pnormalize c = c → pnormalize p = p →
      p ∈ getReferencesOf (addAll ps) c ∧ c ∈ getReferencesTo (addAll ps) p ∧
      c ∈ getKeys (addAll ps) ∧ p ∈ getKeys (addAll ps)) ∧
    (∀ (ps : List (String × String)) (x : String),
      (getReferencesOf (addAll ps) x).Nodup ∧ (getReferencesTo (addAll ps) x).Nodup) ∧
    (∀ (st : MapSt) (c p : String),
      addReference c p (addReference c p st) = addReference c p st) := by
  refine ⟨?_, ?_, addReference_idem⟩
  · intro ps c p hmem hc hp
    have main : ∀ (ps : List (String × String)) (st : MapSt), (c, p) ∈ ps →
        pnormalize p ∈ getReferencesOf (addAllFrom st ps) c ∧
        pnormalize c ∈ getReferencesTo (addAllFrom st ps) p ∧
        pnormalize c ∈ getKeys (addAllFrom st ps) ∧
        pnormalize p ∈ getKeys (addAllFrom st ps) := by
      intro ps
      induction ps with
      | nil => intro st h; simp at h
      | cons hd tl ih =>
        intro st h
        rcases List.mem_cons.1 h with heq | htl
        · subst heq
          refine ⟨getReferencesOf_addAllFrom_mono tl _ _ _
              (getReferencesOf_addReference_self st c p),
            getReferencesTo_addAllFrom_mono tl _ _ _
              (getReferencesTo_addReference_self st c p),
            getKeys_addAllFrom_mono tl _ _ (getKeys_addReference_child st c p),
            getKeys_addAllFrom_mono tl _ _ (getKeys_addReference_parent st c p)⟩
        · exact ih _ htl
    have h := main ps emptyMapper hmem
    rw [hc, hp] at h
    exact h
  · intro ps x
    have hinv := mapper_nodup_invariant ps emptyMapper
      (by intro k arr h; simp [List.lookup] at h) (by intro k arr h; simp [List.lookup] at h)
    exact ⟨getReferencesOf_nodup_of_inv _ hinv.1 x, getReferencesTo_nodup_of_inv _ hinv.2 x⟩

/-- Witness for C9 at one concrete canonical pair. -/
theorem addReference_bidirectional_witness :
    "/b/y" ∈ getReferencesOf (addAll [("/a/x", "/b/y")]) "/a/x" ∧
    "/a/x" ∈ getReferencesTo (addAll [("/a/x", "/b/y")]) "/b/y" ∧
    "/a/x" ∈ getKeys (addAll [("/a/x", "/b/y")]) ∧
    "/b/y" ∈ getKeys (addAll [("/a/x", "/b/y")]) :=
  addReference_bidirectional_idempotent.1 [("/a/x", "/b/y")] "/a/x" "/b/y"
    (by simp) (by decide) (by decide)

/-! ### C4 — termination of the reference traversal

The source recursion has no visited set: on a cyclic reference graph it
recurses forever. The embedding makes this precise: no fuel amount
completes the traversal of the cycle, while any bound on the reference
chains guarantees completion. -/

theorem enumRefList_nil (w : World) (n : Nat) (parent : String) (st : QSt) :
    enumRefList w n parent [] st = some st := by
  rw [enumRefList]

theorem enumRefList_cons (w : World) (n : Nat) (parent r : String) (rest : List String)
    (st : QSt) :
    enumRefList w n parent (r :: rest) st =
      (match parseConfigFile w r with
       | none => enumRefList w n parent rest { st with mapper := addReference parent r st.mapper }
       | some resolvedRef =>
         match enumRef w n (resolveRefPath r) resolvedRef
             { st with mapper := addReference parent r st.mapper } with
         | none => none
         | some st' => enumRefList w n parent rest st') := by
  rw [enumRefList]

theorem enumRef_zero (w : World) (p : String) (cfg : Cfg) (st : QSt) :
    enumRef w 0 p cfg st = none := by
  rw [enumRef]

theorem enumRef_succ (w : World) (f : Nat) (p : String) (cfg : Cfg) (st : QSt) :
    enumRef w (f + 1) p cfg st =
      (match getProjectReferenceFileNames cfg with
       | none => some (addToLevel st p)
       | some refs =>
         match enumRefList w f p refs
             { addToLevel st p with pos := (addToLevel st p).pos + 1 } with
         | none => none
         | some st' => some { st' with pos := st'.pos - 1 }) := by
  rw [enumRef]

/-- Project `A` of the two-project cycle. -/
def c4CfgA : Cfg := { fileNames := [], references := some [⟨"/w/B/tsconfig.json", false⟩] }

/-- Project `B` of the two-project cycle. -/
def c4CfgB : Cfg := { fileNames := [], references := some [⟨"/w/A/tsconfig.json", false⟩] }

/-- The cyclic world: `A` references `B` and `B` references `A`. -/
def c4World : World :=
  { configs := [("/w/A/tsconfig.json", c4CfgA), ("/w/B/tsconfig.json", c4CfgB)], files := [] }

theorem enumRef_cycle_none (fuel : Nat) : ∀ st : QSt,
    enumRef c4World fuel "/w/A/tsconfig.json" c4CfgA st = none ∧
    enumRef c4World fuel "/w/B/tsconfig.json" c4CfgB st = none := by
  induction fuel with
  | zero =>
    intro st
    exact ⟨enumRef_zero _ _ _ _, enumRef_zero _ _ _ _⟩
  | succ f ih =>
    intro st
    constructor
    · simp only [enumRef_succ,
        show getProjectReferenceFileNames c4CfgA = some ["/w/B/tsconfig.json"] from rfl,
        enumRefList_cons,
        show parseConfigFile c4World "/w/B/tsconfig.json" = some c4CfgB from rfl,
        resolveRefPath]
      rw [(ih _).2]
    · simp only [enumRef_succ,
        show getProjectReferenceFileNames c4CfgB = some ["/w/A/tsconfig.json"] from rfl,
        enumRefList_cons,
        show parseConfigFile c4World "/w/A/tsconfig.json" = some c4CfgA from rfl,
        resolveRefPath]
      rw [(ih _).1]

/-- C4 counterexample: on the cyclic input `A ↔ B` the graph builder
never terminates — no recursion budget yields a result, so it neither
fails with a cycle error nor compacts the cycle into a layer. -/
theorem graphBuild_diverges_on_cycle :
    ¬ graphBuildTerminates c4World ["/w/A/tsconfig.json"] := by
  rintro ⟨fuel, res, hres⟩
  rw [createDependencyGraph] at hres
  rw [show enumRoots c4World fuel ["/w/A/tsconfig.json"] ⟨[], 0, emptyMapper⟩ =
      (match enumRef c4World fuel (resolveRefPath "/w/A/tsconfig.json") c4CfgA
          ⟨[], 0, emptyMapper⟩ with
       | none => none
       | some st' => enumRoots c4World fuel [] st') from rfl] at hres
  rw [show resolveRefPath "/w/A/tsconfig.json" = "/w/A/tsconfig.json" from rfl] at hres
  rw [(enumRef_cycle_none fuel _).1] at hres
  exact Option.noConfusion hres

theorem enumRefList_some_of_all (w : World) (n : Nat) (parent : String)
    (refs : List String)
    (hall : ∀ r ∈ refs, ∀ c, parseConfigFile w r = some c →
      ∀ st : QSt, ∃ st', enumRef w n r c st = some st') :
    ∀ st : QSt, ∃ st', enumRefList w n parent refs st = some st' := by
  induction refs with
  | nil =>
    intro st
    exact ⟨st, enumRefList_nil _ _ _ _⟩
  | cons r rest ih =>
    intro st
    rw [enumRefList_cons]
    cases hp : parseConfigFile w r with
    | none =>
      dsimp only
      exact ih (fun r' hr' => hall r' (List.mem_cons_of_mem _ hr')) _
    | some c =>
      obtain ⟨st1, hst1⟩ := hall r (List.mem_cons_self _ _) c hp
        { st with mapper := addReference parent r st.mapper }
      dsimp only [resolveRefPath]
      rw [hst1]
      exact ih (fun r' hr' => hall r' (List.mem_cons_of_mem _ hr')) st1

/-- C4 (amended): the reference traversal completes within fuel `n`
from any state whenever every reference chain out of the project is
shorter than `n` (`BoundedRefs`) — in particular it terminates on every
acyclic reference graph; on a cyclic graph no fuel suffices (see the
cycle counterexample), rather than erroring or compacting the cycle. -/
theorem enumRef_terminates_of_boundedRefs (w : World) (fuel : Nat) (p : String)
    (hb : BoundedRefs w fuel p) :
    ∀ cfg, parseConfigFile w p = some cfg →
      ∀ st : QSt, ∃ st', enumRef w fuel p cfg st = some st' := by
  induction hb with
  | step n q hq ih =>
    intro cfg hcfg st
    rw [enumRef_succ]
    cases hrefs : getProjectReferenceFileNames cfg with
    | none => exact ⟨_, rfl⟩
    | some refs =>
      dsimp only
      have hall : ∀ r ∈ refs, ∀ c, parseConfigFile w r = some c →
          ∀ st : QSt, ∃ st', enumRef w n r c st = some st' :=
        fun r hr c hc => ih cfg refs hcfg hrefs r hr c hc c hc
      obtain ⟨st', hst'⟩ := enumRefList_some_of_all w n q refs hall
        { addToLevel st q with pos := (addToLevel st q).pos + 1 }
      rw [hst']
      exact ⟨_, rfl⟩

/-- The linear two-project world used as the C4 witness. -/
def c4LinCfgA : Cfg := { fileNames := [], references := some [⟨"/x/B/tsconfig.json", false⟩] }

/-- The leaf project of the linear world. -/
def c4LinCfgB : Cfg := { fileNames := [] }

/-- The linear world: `A` references `B`; `B` references nothing. -/
def c4LinWorld : World :=
  { configs := [("/x/A/tsconfig.json", c4LinCfgA), ("/x/B/tsconfig.json", c4LinCfgB)], files := [] }

theorem c4Lin_boundedB : BoundedRefs c4LinWorld 1 "/x/B/tsconfig.json" := by
  refine BoundedRefs.step 0 _ ?_
  intro cfg refs hcfg hrefs r hr c hc
  rw [show parseConfigFile c4LinWorld "/x/B/tsconfig.json" = some c4LinCfgB from rfl] at hcfg
  cases hcfg
  exact absurd hrefs (by rw [show getProjectReferenceFileNames c4LinCfgB = none from rfl]; simp)

theorem c4Lin_boundedA : BoundedRefs c4LinWorld 2 "/x/A/tsconfig.json" := by
  refine BoundedRefs.step 1 _ ?_
  intro cfg refs hcfg hrefs r hr c hc
  rw [show parseConfigFile c4LinWorld "/x/A/tsconfig.json" = some c4LinCfgA from rfl] at hcfg
  cases hcfg
  rw [show getProjectReferenceFileNames c4LinCfgA = some ["/x/B/tsconfig.json"] from rfl]
    at hrefs
  cases hrefs
  rcases List.mem_singleton.1 hr with rfl
  exact c4Lin_boundedB

/-- Witness for the amended C4: fuel 2 completes the linear traversal. -/
theorem enumRef_terminates_witness :
    ∃ st', enumRef c4LinWorld 2 "/x/A/tsconfig.json" c4LinCfgA ⟨[], 0, emptyMapper⟩ = some st' :=
  enumRef_terminates_of_boundedRefs c4LinWorld 2 "/x/A/tsconfig.json" c4Lin_boundedA
    c4LinCfgA rfl ⟨[], 0, emptyMapper⟩

/-! ### C5 — the prepend pseudo-build reconstruction -/

theorem ebind_ok {α β : Type} (a : α) (f : α → Except String β) :
    (Except.ok a >>= f) = f a := rfl

theorem ebind_error {α β : Type} (e : String) (f : α → Except String β) :
    ((Except.error e : Except String α) >>= f) = Except.error e := rfl

theorem sempty_append (a : String) : "" ++ a = a := by simp

theorem sappend_empty (a : String) : a ++ "" = a := by simp

theorem prependAll_foldl (l : List String) : ∀ a : String,
    l.foldl (fun acc c => c ++ acc) a = prependAll l ++ a := by
  induction l with
  | nil => intro a; simp [prependAll]
  | cons c l ih =>
    intro a
    rw [prependAll, List.foldl_cons, List.foldl_cons, ih, ih (c ++ "")]
    rw [sappend_empty, String.append_assoc]

theorem prependAll_cons (c : String) (cs : List String) :
    prependAll (c :: cs) = prependAll cs ++ c := by
  rw [prependAll, List.foldl_cons, prependAll_foldl, sappend_empty]

/-- The accumulation loop computes exactly the prepend-fold of the
reference outputs. -/
theorem accumRefOutputs_of_mapM (w : World) (proj : String) :
    ∀ (refs : List PRef) (cs : List String),
      refs.mapM (readRefOutput w proj) = .ok cs →
      ∀ acc : String, accumRefOutputs w proj refs acc = .ok (prependAll cs ++ acc) := by
  intro refs
  induction refs with
  | nil =>
    intro cs h acc
    rw [List.mapM_nil] at h
    cases h
    rw [accumRefOutputs, prependAll, List.foldl_nil, sempty_append]
  | cons r rest ih =>
    intro cs h acc
    rw [List.mapM_cons] at h
    cases hr : readRefOutput w proj r with
    | error e =>
      rw [hr, ebind_error] at h
      exact Except.noConfusion h
    | ok c =>
      rw [hr, ebind_ok] at h
      cases hrest : rest.mapM (readRefOutput w proj) with
      | error e =>
        rw [hrest, ebind_error] at h
        exact Except.noConfusion h
      | ok cs' =>
        rw [hrest, ebind_ok] at h
        have hcs : cs = c :: cs' := by
          have : (Except.ok (c :: cs') : Except String (List String)) = Except.ok cs := h
          cases this
          rfl
        subst hcs
        rw [accumRefOutputs, hr, ebind_ok, ih cs' hrest (c ++ acc)]
        rw [prependAll_cons, String.append_assoc]

theorem fileExists_of_readFile (w : World) (f s : String)
    (h : readFileE w f = .ok s) : fileExistsW w f = true := by
  rw [readFileE] at h
  rw [fileExistsW]
  cases hl : w.files.lookup f with
  | none => rw [hl] at h; exact Except.noConfusion h
  | some d => simp

/-- C5: for a prepend project whose bundle and descriptor are
consistent and whose references all resolve and read, the pseudo-build
succeeds, writes the bundle `prependAll cs ++ ob[originalOffset:]`
(accumulated upstream outputs followed by the project's original
contribution), and persists a descriptor whose `originalOffset` is the
total accumulated upstream length and whose `totalLength` is the new
bundle's length. -/
theorem tryReusePrependedBuild_success (w : World) (proj : String) (cfg : Cfg) (now : Int)
    (outFilePath rawInfo ob : String) (info : BundleInfo) (refs : List PRef)
    (cs : List String)
    (hof : getOutFileName proj cfg = .ok outFilePath)
    (hob : readFileE w outFilePath = .ok ob)
    (hraw : readFileE w (changeExtension outFilePath ".bundle_info") = .ok rawInfo)
    (hdec : decodeInfo rawInfo = some info)
    (hlen : ob.data.length = info.totalLength)
    (hrefs : cfg.references = some refs)
    (hmap : refs.mapM (readRefOutput w proj) = .ok cs) :
    tryReusePrependedBuild w proj cfg now = .ok (true,
      writeFileW (writeFileW w outFilePath
          (prependAll cs ++ String.mk (ob.data.drop info.originalOffset)) now)
        (changeExtension outFilePath ".bundle_info")
        (encodeInfo ⟨(prependAll cs).data.length,
          (prependAll cs ++ String.mk (ob.data.drop info.originalOffset)).data.length⟩) now) := by
  have he1 := fileExists_of_readFile w _ _ hob
  have he2 := fileExists_of_readFile w _ _ hraw
  rw [tryReusePrependedBuild, hof, ebind_ok]
  simp only [he1, he2, Bool.true_eq_false, if_false, hraw, ebind_ok, hdec, hob, hrefs]
  simp only [hlen, ne_eq, not_true_eq_false, if_false]
  rw [show (pure info : Except String BundleInfo) = Except.ok info from rfl, ebind_ok]
  rw [if_neg (by simp)]
  rw [show (pure refs : Except String (List PRef)) = Except.ok refs from rfl, ebind_ok]
  rw [accumRefOutputs_of_mapM w proj refs cs hmap "", ebind_ok]
  simp only [sappend_empty]
  rfl

/-- The concatenating project of the C5/C6 scenarios. -/
def c5Cfg : Cfg :=
  { fileNames := ["/w/C/c.ts"], outFile := some "/w/C/c.js", declaration := true
    references := some [⟨"A", true⟩, ⟨"B", false⟩] }

/-- Upstream project `A` of the prepend scenario. -/
def c5RefACfg : Cfg := { fileNames := [], outFile := some "/w/C/A/a.js" }

/-- Upstream project `B` of the prepend scenario. -/
def c5RefBCfg : Cfg := { fileNames := [], outFile := some "/w/C/B/b.js" }

/-- The consistent prepend world: bundle `UUoriginal` with descriptor
`{originalOffset 2, totalLength 10}` and both upstream bundles present. -/
def c5World : World :=
  { configs := [("/w/C/tsconfig.json", c5Cfg), ("/w/C/A/tsconfig.json", c5RefACfg),
                ("/w/C/B/tsconfig.json", c5RefBCfg)]
    files := [("/w/C/c.js", ⟨"UUoriginal", 10⟩), ("/w/C/c.bundle_info", ⟨"2,10", 10⟩),
              ("/w/C/A/a.js", ⟨"AAA", 8⟩), ("/w/C/B/b.js", ⟨"bb", 8⟩)] }

/-- Witness for C5 on the concrete prepend world. -/
theorem tryReusePrependedBuild_success_witness :
    tryReusePrependedBuild c5World "/w/C/tsconfig.json" c5Cfg 100 = .ok (true,
      writeFileW (writeFileW c5World "/w/C/c.js"
          (prependAll ["AAA", "bb"] ++ String.mk ("UUoriginal".data.drop 2)) 100)
        (changeExtension "/w/C/c.js" ".bundle_info")
        (encodeInfo ⟨(prependAll ["AAA", "bb"]).data.length,
          (prependAll ["AAA", "bb"] ++ String.mk ("UUoriginal".data.drop 2)).data.length⟩)
        100) :=
  tryReusePrependedBuild_success c5World "/w/C/tsconfig.json" c5Cfg 100 "/w/C/c.js"
    "2,10" "UUoriginal" ⟨2, 10⟩ [⟨"A", true⟩, ⟨"B", false⟩] ["AAA", "bb"]
    rfl rfl rfl rfl rfl rfl rfl

/-! ### C6 — pseudo-build inconsistencies

The three checked inconsistencies (missing bundle, missing sidecar,
length mismatch) return `false` gracefully; anything else — here a
missing referenced output bundle — propagates as an exception. -/

/-- The inconsistent world of the C6 counterexample: bundle and sidecar
agree, but the referenced output `/w/C/A/a.js` has been deleted. -/
def c6World : World :=
  { configs := [("/w/C/tsconfig.json", c5Cfg), ("/w/C/A/tsconfig.json", c5RefACfg),
                ("/w/C/B/tsconfig.json", c5RefBCfg)]
    files := [("/w/C/c.js", ⟨"UUoriginal", 10⟩), ("/w/C/c.bundle_info", ⟨"2,10", 10⟩)] }

/-- C6 counterexample: with a missing referenced output bundle,
`tryPseudoBuild` raises (the `readFileSync` exception propagates)
instead of returning `false`. -/
theorem tryPseudoBuild_raises_on_missing_reference_output :
    tryPseudoBuild c6World "/w/C/tsconfig.json" 100 [] =
      .error ("ENOENT: " ++ "/w/C/A/a.js") := rfl

theorem tryReusePrependedBuild_graceful (w : World) (proj : String) (cfg : Cfg) (now : Int)
    (outFilePath : String)
    (hof : getOutFileName proj cfg = .ok outFilePath) :
    (fileExistsW w outFilePath = false →
      tryReusePrependedBuild w proj cfg now = .ok (false, w)) ∧
    (fileExistsW w (changeExtension outFilePath ".bundle_info") = false →
      tryReusePrependedBuild w proj cfg now = .ok (false, w)) ∧
    (∀ rawInfo info ob,
      readFileE w (changeExtension outFilePath ".bundle_info") = .ok rawInfo →
      decodeInfo rawInfo = some info →
      readFileE w outFilePath = .ok ob →
      ob.data.length ≠ info.totalLength →
      tryReusePrependedBuild w proj cfg now = .ok (false, w)) := by
  refine ⟨?_, ?_, ?_⟩
  · intro hmiss
    rw [tryReusePrependedBuild, hof, ebind_ok]
    simp only [hmiss, if_true]
    rfl
  · intro hmiss
    rw [tryReusePrependedBuild, hof, ebind_ok]
    cases hb : fileExistsW w outFilePath with
    | false =>
      simp only [hb, if_true]
      rfl
    | true =>
      simp only [hb, Bool.true_eq_false, if_false, hmiss, if_true]
      rfl
  · intro rawInfo info ob hraw hdec hob hne
    have he1 := fileExists_of_readFile w _ _ hob
    have he2 := fileExists_of_readFile w _ _ hraw
    rw [tryReusePrependedBuild, hof, ebind_ok]
    simp only [he1, he2, Bool.true_eq_false, if_false, hraw, ebind_ok, hdec, hob]
    rw [show (pure info : Except String BundleInfo) = Except.ok info from rfl, ebind_ok]
    rw [if_pos hne]
    rfl

/-- C6 (amended): when the project parses and has a `prepend`
reference, `tryPseudoBuild` returns `false` without raising for each of
the three checked inconsistencies — missing bundle, missing sidecar
descriptor, or a descriptor `totalLength` that disagrees with the
bundle's length; other inconsistencies, such as a missing referenced
output (see the counterexample) or a malformed sidecar, raise. -/
theorem tryPseudoBuild_graceful_false (w : World) (proj : String) (cfg : Cfg) (now : Int)
    (ctx : FMap Int) (refs : List PRef) (outFilePath : String)
    (hcfg : parseConfigFile w proj = some cfg)
    (hrefs : cfg.references = some refs)
    (hpre : refs.any PRef.prepend = true)
    (hof : getOutFileName proj cfg = .ok outFilePath) :
    (fileExistsW w outFilePath = false →
      tryPseudoBuild w proj now ctx = .ok (false, w, ctx)) ∧
    (fileExistsW w (changeExtension outFilePath ".bundle_info") = false →
      tryPseudoBuild w proj now ctx = .ok (false, w, ctx)) ∧
    (∀ rawInfo info ob,
      readFileE w (changeExtension outFilePath ".bundle_info") = .ok rawInfo →
      decodeInfo rawInfo = some info →
      readFileE w outFilePath = .ok ob →
      ob.data.length ≠ info.totalLength →
      tryPseudoBuild w proj now ctx = .ok (false, w, ctx)) := by
  have hgr := tryReusePrependedBuild_graceful w proj cfg now outFilePath hof
  refine ⟨?_, ?_, ?_⟩
  · intro hmiss
    rw [tryPseudoBuild, hcfg]
    simp only [hrefs, hpre, if_true]
    rw [hgr.1 hmiss, ebind_ok]
    rfl
  · intro hmiss
    rw [tryPseudoBuild, hcfg]
    simp only [hrefs, hpre, if_true]
    rw [hgr.2.1 hmiss, ebind_ok]
    rfl
  · intro rawInfo info ob hraw hdec hob hne
    rw [tryPseudoBuild, hcfg]
    simp only [hrefs, hpre, if_true]
    rw [hgr.2.2 rawInfo info ob hraw hdec hob hne, ebind_ok]
    rfl

/-- World with the bundle itself missing. -/
def c6aWorld : World :=
  { configs := [("/w/C/tsconfig.json", c5Cfg)], files := [] }

/-- World with the sidecar descriptor missing. -/
def c6bWorld : World :=
  { configs := [("/w/C/tsconfig.json", c5Cfg)]
    files := [("/w/C/c.js", ⟨"UUoriginal", 10⟩)] }

/-- World whose sidecar `totalLength` (9) disagrees with the bundle's
actual length (10). -/
def c6cWorld : World :=
  { configs := [("/w/C/tsconfig.json", c5Cfg)]
    files := [("/w/C/c.js", ⟨"UUoriginal", 10⟩), ("/w/C/c.bundle_info", ⟨"2,9", 10⟩)] }

/-- Witness for the amended C6: each checked inconsistency yields a
graceful `false` on a concrete world. -/
theorem tryPseudoBuild_graceful_false_witness :
    tryPseudoBuild c6aWorld "/w/C/tsconfig.json" 100 [] = .ok (false, c6aWorld, []) ∧
    tryPseudoBuild c6bWorld "/w/C/tsconfig.json" 100 [] = .ok (false, c6bWorld, []) ∧
    tryPseudoBuild c6cWorld "/w/C/tsconfig.json" 100 [] = .ok (false, c6cWorld, []) :=
  ⟨(tryPseudoBuild_graceful_false c6aWorld "/w/C/tsconfig.json" c5Cfg 100 []
      [⟨"A", true⟩, ⟨"B", false⟩] "/w/C/c.js" rfl rfl rfl rfl).1 rfl,
   (tryPseudoBuild_graceful_false c6bWorld "/w/C/tsconfig.json" c5Cfg 100 []
      [⟨"A", true⟩, ⟨"B", false⟩] "/w/C/c.js" rfl rfl rfl rfl).2.1 rfl,
   (tryPseudoBuild_graceful_false c6cWorld "/w/C/tsconfig.json" c5Cfg 100 []
      [⟨"A", true⟩, ⟨"B", false⟩] "/w/C/c.js" rfl rfl rfl rfl).2.2
     "2,9" ⟨2, 9⟩ "UUoriginal" rfl rfl rfl (by decide)⟩

end TsBuild
